import Mathlib

/-!
Verification of the staking / session engine in
`src/src/scripts/simulation.py` (`simulate_apollo`).

Numbers are modelled as rationals.  Python's `round(x, 2)` rounds to two
decimal places with ties going to the even digit (banker's rounding); it is
modelled here by `round2`.  The instrument strings `"U8"` / `"U4"` of the
source correspond to the spec's `Normal` / `Recovery` instruments.
-/

/-- Source constant `base_stake = 1.0`. -/
def base_stake : ℚ := 1

/-- Source constant `payout_u8 = 0.19` (payout of the Normal instrument). -/
def payout_u8 : ℚ := 19/100

/-- Source constant `payout_u4 = 1.20` (payout of the Recovery instrument). -/
def payout_u4 : ℚ := 6/5

/-- Source line `profit_pct = 0.02 if mode == 'conservador' else 0.15`. -/
def profit_pct (mode : String) : ℚ :=
  if mode = "conservador" then 2/100 else 15/100

/-- Round a rational to the nearest integer, ties to the even integer
(the rounding used by Python's builtin `round`). -/
def roundHalfEven (x : ℚ) : ℤ :=
  if x - ⌊x⌋ < 1/2 then ⌊x⌋
  else if 1/2 < x - ⌊x⌋ then ⌊x⌋ + 1
  else if ⌊x⌋ % 2 = 0 then ⌊x⌋ else ⌊x⌋ + 1

/-- Python's `round(x, 2)`: two-decimal rounding, ties to even. -/
def round2 (x : ℚ) : ℚ := (roundHalfEven (100 * x) : ℚ) / 100

/-- The staking policy of the source: the `if loss_streak == 0 / elif
loss_streak == 1 / else` block choosing `(contract, current_stake)`. -/
def decideStake (pp : ℚ) (loss_streak : ℕ) (accumulated_loss : ℚ) :
    String × ℚ :=
  if loss_streak = 0 then ("U8", base_stake)
  else if loss_streak = 1 then ("U8", base_stake)
  else
    let target := accumulated_loss * (1 + pp)
    let required_profit := target
    let s := round2 (required_profit / payout_u4)
    ("U4", if s < 35/100 then 35/100 else s)

/-- One entry of the source's `history` list (the printed ledger):
`{'step': i, 'contract': c, 'stake': s, 'balance': b, 'acc_loss': a}`. -/
structure StepRecord where
  step : ℕ
  contract : String
  stake : ℚ
  balance : ℚ
  acc_loss : ℚ
  deriving DecidableEq

/-- The source's `for i in range(1, 20)` loop, by fuel (`fuel` = remaining
iterations, `i` = current step number).  Each iteration decides a stake,
applies the (always `LOSS`) outcome, appends a record, and breaks when
`abs(balance) >= stop_loss`.  Returns the history, the final balance and
whether the stop-loss `break` fired. -/
def simSteps (pp sl : ℚ) : ℕ → ℕ → ℚ → ℕ → ℚ → List StepRecord × ℚ × Bool
  | 0, _, b, _, _ => ([], b, false)
  | fuel+1, i, b, streak, acc =>
    let d := decideStake pp streak acc
    let b' := b - d.2
    let acc' := acc + d.2
    let r : StepRecord := ⟨i, d.1, d.2, b', acc'⟩
    if sl ≤ |b'| then ([r], b', true)
    else
      let rest := simSteps pp sl fuel (i+1) b' (streak+1) acc'
      (r :: rest.1, rest.2.1, rest.2.2)

/-- Result of a session run: the ledger, the final balance, whether the
stop-loss break fired (the source prints "STOP LOSS ATINGIDO"), and the
reported total invested (the source prints `abs(balance)` at the break). -/
structure SimResult where
  history : List StepRecord
  balance : ℚ
  stopped_out : Bool
  total_invested : Option ℚ
  deriving DecidableEq

/-- `simulate_apollo(stop_loss, mode)` of the source (its Python defaults
are `stop_loss=50.0`, `mode='conservador'`).  State starts zeroed
(`balance = 0`, `loss_streak = 0`, `accumulated_loss = 0`) and the loop
runs `for i in range(1, 20)`, i.e. with 19 iterations of fuel. -/
def simulate_apollo (stop_loss : ℚ) (mode : String) : SimResult :=
  let pp := profit_pct mode
  let out := simSteps pp stop_loss 19 1 0 0 0
  ⟨out.1, out.2.1, out.2.2, if out.2.2 then some |out.2.1| else none⟩

/-- The per-outcome state transition of the spec's per-step protocol. -/
structure SessionState where
  balance : ℚ
  loss_streak : ℕ
  accumulated_loss : ℚ
  deriving DecidableEq

/-- The two possible outcomes of a bet. -/
inductive Outcome
  | win
  | loss
  deriving DecidableEq

/-- Payout rate per instrument, from the source constants: the Recovery
instrument `"U4"` pays `payout_u4 = 1.20`, the Normal instrument `"U8"`
pays `payout_u8 = 0.19`. -/
def payoutRate (contract : String) : ℚ :=
  if contract = "U4" then payout_u4 else payout_u8

/-- Modelled from the spec: the full outcome application of the per-step
protocol.  The source fixes every outcome to `Loss` (its `# Simulate LOSS`
block, which this definition reproduces on `Outcome.loss`), so the `Win`
branch is absent from `src`; the spec defines it as
`balance += stake * payoutRate(instrument); accumulatedLoss = 0;
lossStreak = 0`. -/
def applyOutcome (contract : String) (stake : ℚ) (o : Outcome)
    (st : SessionState) : SessionState :=
  match o with
  | Outcome.loss =>
      ⟨st.balance - stake, st.loss_streak + 1, st.accumulated_loss + stake⟩
  | Outcome.win =>
      ⟨st.balance + stake * payoutRate contract, 0, 0⟩

/-! ### Arithmetic facts about the rounding function -/

theorem roundHalfEven_intCast (n : ℤ) : roundHalfEven (n : ℚ) = n := by
  simp [roundHalfEven]

theorem roundHalfEven_of_lt_half (x : ℚ) (n : ℤ) (h₁ : (n : ℚ) ≤ x)
    (h₂ : x < (n : ℚ) + 1/2) : roundHalfEven x = n := by
  have hf : ⌊x⌋ = n := by
    rw [Int.floor_eq_iff]
    constructor
    · exact h₁
    · push_cast
      linarith
  rw [roundHalfEven, hf]
  rw [if_pos (by linarith)]

theorem round2_num (x : ℚ) (n : ℤ) (h₁ : (n : ℚ) ≤ 100 * x)
    (h₂ : 100 * x < (n : ℚ) + 1/2) : round2 x = (n : ℚ) / 100 := by
  rw [round2, roundHalfEven_of_lt_half _ n h₁ h₂]

theorem roundHalfEven_ge_floor (x : ℚ) : ⌊x⌋ ≤ roundHalfEven x := by
  rw [roundHalfEven]
  split
  · exact le_refl _
  split
  · omega
  split
  · exact le_refl _
  · omega

theorem roundHalfEven_le (x : ℚ) : (roundHalfEven x : ℚ) ≤ x + 1/2 := by
  have hfl : (⌊x⌋ : ℚ) ≤ x := Int.floor_le x
  rw [roundHalfEven]
  split
  · linarith
  split
  · push_cast
    linarith [‹1/2 < x - (⌊x⌋ : ℚ)›]
  split
  · linarith
  · push_cast
    have hr : ¬ (x - (⌊x⌋ : ℚ) < 1/2) := by assumption
    linarith [not_lt.mp hr]

theorem roundHalfEven_ge (x : ℚ) : x - 1/2 ≤ (roundHalfEven x : ℚ) := by
  have hfl : (⌊x⌋ : ℚ) ≤ x := Int.floor_le x
  have hfl2 : x < (⌊x⌋ : ℚ) + 1 := Int.lt_floor_add_one x
  rw [roundHalfEven]
  split
  · linarith [‹x - (⌊x⌋ : ℚ) < 1/2›]
  split
  · push_cast
    linarith
  split
  · have hr : ¬ (x - (⌊x⌋ : ℚ) < 1/2) := by assumption
    linarith [not_lt.mp hr]
  · push_cast
    linarith

theorem round2_le (x : ℚ) : round2 x ≤ x + 1/200 := by
  have h := roundHalfEven_le (100 * x)
  rw [round2]
  rw [div_le_iff (by norm_num : (0:ℚ) < 100)]
  linarith

theorem round2_ge (x : ℚ) : x - 1/200 ≤ round2 x := by
  have h := roundHalfEven_ge (100 * x)
  rw [round2]
  rw [le_div_iff (by norm_num : (0:ℚ) < 100)]
  linarith

/-- If `17/10 ≤ x` then the two-decimal rounding of `x` is at least
`17/10` (the rounding never drops below an integer number of cents that
`x` already clears). -/
theorem round2_ge_of_le (x : ℚ) (h : 17/10 ≤ x) : 17/10 ≤ round2 x := by
  have h1 : (170 : ℤ) ≤ ⌊100 * x⌋ := by
    rw [Int.le_floor]
    push_cast
    linarith
  have h2 := roundHalfEven_ge_floor (100 * x)
  rw [round2]
  rw [le_div_iff (by norm_num : (0:ℚ) < 100)]
  have : (170 : ℚ) ≤ (roundHalfEven (100 * x) : ℚ) := by
    exact_mod_cast le_trans h1 h2
  linarith

/-! ### Structural lemmas about the step loop -/

/-- Unfolding equation of `simSteps` at positive fuel. -/
theorem simSteps_succ (pp sl : ℚ) (fuel i : ℕ) (b : ℚ) (streak : ℕ)
    (acc : ℚ) :
    simSteps pp sl (fuel+1) i b streak acc =
      (if sl ≤ |b - (decideStake pp streak acc).2| then
        ([⟨i, (decideStake pp streak acc).1, (decideStake pp streak acc).2,
            b - (decideStake pp streak acc).2,
            acc + (decideStake pp streak acc).2⟩],
         b - (decideStake pp streak acc).2, true)
      else
        (⟨i, (decideStake pp streak acc).1, (decideStake pp streak acc).2,
           b - (decideStake pp streak acc).2,
           acc + (decideStake pp streak acc).2⟩ ::
             (simSteps pp sl fuel (i+1) (b - (decideStake pp streak acc).2)
               (streak+1) (acc + (decideStake pp streak acc).2)).1,
         (simSteps pp sl fuel (i+1) (b - (decideStake pp streak acc).2)
           (streak+1) (acc + (decideStake pp streak acc).2)).2.1,
         (simSteps pp sl fuel (i+1) (b - (decideStake pp streak acc).2)
           (streak+1) (acc + (decideStake pp streak acc).2)).2.2)) := by
  rw [simSteps]

/-- Every record of a run entered with `accumulated_loss = -balance`
satisfies `acc_loss = -balance` (the loss update moves both fields by the
same stake). -/
theorem simSteps_acc_neg_balance (pp sl : ℚ) :
    ∀ (fuel i : ℕ) (b : ℚ) (streak : ℕ) (acc : ℚ), acc = -b →
      ∀ r ∈ (simSteps pp sl fuel i b streak acc).1, r.acc_loss = -r.balance := by
  intro fuel
  induction fuel with
  | zero =>
    intro i b streak acc hacc r hr
    simp [simSteps] at hr
  | succ n ih =>
    intro i b streak acc hacc r hr
    rw [simSteps_succ] at hr
    by_cases hstop : sl ≤ |b - (decideStake pp streak acc).2|
    · rw [if_pos hstop] at hr
      simp only [List.mem_singleton] at hr
      subst hr
      simp only
      linarith
    · rw [if_neg hstop] at hr
      rw [List.mem_cons] at hr
      rcases hr with hr | hr
      · subst hr
        simp only
        linarith
      · exact ih (i+1) (b - (decideStake pp streak acc).2) (streak+1)
          (acc + (decideStake pp streak acc).2) (by linarith) r hr

/-- Every record of a run entered with `i = streak + 1` carries the stake
decision taken on its own pre-bet streak (`step - 1`) and pre-bet
accumulated loss (`acc_loss - stake`), and its step number is positive. -/
theorem simSteps_stake_eq (pp sl : ℚ) :
    ∀ (fuel i : ℕ) (b : ℚ) (streak : ℕ) (acc : ℚ), i = streak + 1 →
      ∀ r ∈ (simSteps pp sl fuel i b streak acc).1,
        1 ≤ r.step ∧
        (r.contract, r.stake) = decideStake pp (r.step - 1) (r.acc_loss - r.stake) := by
  intro fuel
  induction fuel with
  | zero =>
    intro i b streak acc hi r hr
    simp [simSteps] at hr
  | succ n ih =>
    intro i b streak acc hi r hr
    rw [simSteps_succ] at hr
    have hhead :
        (⟨i, (decideStake pp streak acc).1, (decideStake pp streak acc).2,
          b - (decideStake pp streak acc).2,
          acc + (decideStake pp streak acc).2⟩ : StepRecord).step = i := rfl
    by_cases hstop : sl ≤ |b - (decideStake pp streak acc).2|
    · rw [if_pos hstop] at hr
      simp only [List.mem_singleton] at hr
      subst hr
      refine ⟨by omega, ?_⟩
      simp only
      have h1 : i - 1 = streak := by omega
      have h2 : acc + (decideStake pp streak acc).2 - (decideStake pp streak acc).2 = acc := by
        ring
      rw [h1, h2]
    · rw [if_neg hstop] at hr
      rw [List.mem_cons] at hr
      rcases hr with hr | hr
      · subst hr
        refine ⟨by omega, ?_⟩
        simp only
        have h1 : i - 1 = streak := by omega
        have h2 : acc + (decideStake pp streak acc).2 - (decideStake pp streak acc).2 = acc := by
          ring
        rw [h1, h2]
      · exact ih (i+1) (b - (decideStake pp streak acc).2) (streak+1)
          (acc + (decideStake pp streak acc).2) (by omega) r hr

/-- A record whose post-step balance crossed the stop-loss threshold is the
last record of the run, the run stops out, and the final balance is that
record's balance. -/
theorem simSteps_stop (pp sl : ℚ) :
    ∀ (fuel i : ℕ) (b : ℚ) (streak : ℕ) (acc : ℚ),
      ∀ r ∈ (simSteps pp sl fuel i b streak acc).1, sl ≤ |r.balance| →
        (simSteps pp sl fuel i b streak acc).2.2 = true ∧
        (simSteps pp sl fuel i b streak acc).2.1 = r.balance ∧
        (simSteps pp sl fuel i b streak acc).1.getLast? = some r := by
  intro fuel
  induction fuel with
  | zero =>
    intro i b streak acc r hr
    simp [simSteps] at hr
  | succ n ih =>
    intro i b streak acc r hr hb
    rw [simSteps_succ] at hr ⊢
    by_cases hstop : sl ≤ |b - (decideStake pp streak acc).2|
    · rw [if_pos hstop] at hr ⊢
      simp only [List.mem_singleton] at hr
      subst hr
      exact ⟨rfl, rfl, rfl⟩
    · rw [if_neg hstop] at hr ⊢
      rw [List.mem_cons] at hr
      rcases hr with hr | hr
      · exfalso
        subst hr
        exact hstop hb
      · have htail := ih (i+1) (b - (decideStake pp streak acc).2) (streak+1)
          (acc + (decideStake pp streak acc).2) r hr hb
        refine ⟨htail.1, htail.2.1, ?_⟩
        cases hlist : (simSteps pp sl n (i+1) (b - (decideStake pp streak acc).2)
            (streak+1) (acc + (decideStake pp streak acc).2)).1 with
        | nil =>
          rw [hlist] at hr
          exact absurd hr (List.not_mem_nil r)
        | cons x xs =>
          rw [List.getLast?_cons_cons, ← hlist]
          exact htail.2.2

/-! ### The staking policy, case by case -/

theorem decideStake_zero (pp acc : ℚ) :
    decideStake pp 0 acc = ("U8", base_stake) := rfl

theorem decideStake_one (pp acc : ℚ) :
    decideStake pp 1 acc = ("U8", base_stake) := rfl

/-- For `loss_streak ≥ 2` the policy picks the Recovery instrument and the
rounded-and-floored recovery stake. -/
theorem decideStake_recovery (pp : ℚ) (k : ℕ) (hk : 2 ≤ k) (acc : ℚ) :
    decideStake pp k acc =
      ("U4", if round2 (acc * (1 + pp) / payout_u4) < 35/100 then 35/100
             else round2 (acc * (1 + pp) / payout_u4)) := by
  rw [decideStake, if_neg (by omega), if_neg (by omega)]

/-- The policy never returns a nonpositive stake. -/
theorem decideStake_nonneg (pp : ℚ) (k : ℕ) (acc : ℚ) :
    0 ≤ (decideStake pp k acc).2 := by
  match k with
  | 0 =>
    rw [decideStake_zero, base_stake]
    norm_num
  | 1 =>
    rw [decideStake_one, base_stake]
    norm_num
  | (n+2) =>
    rw [decideStake_recovery pp (n+2) (by omega) acc]
    simp only
    split
    · norm_num
    · linarith [‹¬ round2 (acc * (1 + pp) / payout_u4) < 35/100›, show (0:ℚ) ≤ 35/100 by norm_num]

/-- With a profit margin of at most `0.15` and a nonnegative accumulated
loss, the stake never exceeds `accumulated_loss + 1`. -/
theorem decideStake_le (pp : ℚ) (hpp : pp ≤ 15/100) (k : ℕ) (acc : ℚ)
    (hacc : 0 ≤ acc) : (decideStake pp k acc).2 ≤ acc + 1 := by
  match k with
  | 0 =>
    rw [decideStake_zero]
    show base_stake ≤ acc + 1
    rw [base_stake]
    linarith
  | 1 =>
    rw [decideStake_one]
    show base_stake ≤ acc + 1
    rw [base_stake]
    linarith
  | (n+2) =>
    rw [decideStake_recovery pp (n+2) (by omega) acc]
    simp only
    have harg : acc * (1 + pp) / payout_u4 ≤ acc := by
      rw [payout_u4, div_le_iff (by norm_num : (0:ℚ) < 6/5)]
      nlinarith
    have h1 := round2_le (acc * (1 + pp) / payout_u4)
    split
    · linarith
    · linarith

/-- If the stop-loss lies above the doubling envelope of the accumulated
loss, the loop runs out of fuel without ever stopping out. -/
theorem simSteps_no_stop (pp sl : ℚ) (hpp : pp ≤ 15/100) :
    ∀ (fuel i : ℕ) (b : ℚ) (streak : ℕ) (acc : ℚ),
      acc = -b → 0 ≤ acc → 2^fuel * (acc + 1) ≤ sl →
      (simSteps pp sl fuel i b streak acc).1.length = fuel ∧
      (simSteps pp sl fuel i b streak acc).2.2 = false := by
  intro fuel
  induction fuel with
  | zero =>
    intro i b streak acc hacc hnn hsl
    simp [simSteps]
  | succ n ih =>
    intro i b streak acc hacc hnn hsl
    have hs0 : 0 ≤ (decideStake pp streak acc).2 := decideStake_nonneg pp streak acc
    have hsle : (decideStake pp streak acc).2 ≤ acc + 1 := decideStake_le pp hpp streak acc hnn
    have hpow : (2:ℚ) ≤ 2^(n+1) := by
      calc (2:ℚ) = 2^1 := (pow_one 2).symm
      _ ≤ 2^(n+1) := pow_le_pow_right (by norm_num) (by omega)
    have hpown : (0:ℚ) < 2^n := by positivity
    have habs : |b - (decideStake pp streak acc).2| = acc + (decideStake pp streak acc).2 := by
      have hb : b = -acc := by linarith
      rw [hb]
      rw [abs_of_nonpos (by linarith)]
      ring
    have hlt : acc + (decideStake pp streak acc).2 < sl := by
      have h2 : 2 * (acc + 1) ≤ 2^(n+1) * (acc + 1) := by
        apply mul_le_mul_of_nonneg_right hpow
        linarith
      linarith
    rw [simSteps_succ, if_neg (by rw [habs]; linarith)]
    have hrec := ih (i+1) (b - (decideStake pp streak acc).2) (streak+1)
      (acc + (decideStake pp streak acc).2) (by linarith) (by linarith) ?_
    · simp only [List.length_cons]
      exact ⟨by rw [hrec.1], hrec.2⟩
    · have h2 : (2:ℚ)^n * (acc + (decideStake pp streak acc).2 + 1) ≤ 2^n * (2 * (acc + 1)) := by
        apply mul_le_mul_of_nonneg_left _ (le_of_lt hpown)
        linarith
      have h3 : (2:ℚ)^n * (2 * (acc + 1)) = 2^(n+1) * (acc + 1) := by
        ring
      linarith

/-- Once in recovery with at least the two base losses accumulated, the
stake is at least `1.70`, so the `0.35` floor is never the binding branch. -/
theorem recovery_stake_lb (pp : ℚ) (hpp : 2/100 ≤ pp) (k : ℕ) (hk : 2 ≤ k)
    (acc : ℚ) (hacc : 2 ≤ acc) : 17/10 ≤ (decideStake pp k acc).2 := by
  have harg : 17/10 ≤ acc * (1 + pp) / payout_u4 := by
    rw [payout_u4, le_div_iff (by norm_num : (0:ℚ) < 6/5)]
    nlinarith [mul_nonneg (by linarith : (0:ℚ) ≤ acc - 2) (by linarith : (0:ℚ) ≤ pp - 2/100)]
  have hr := round2_ge_of_le _ harg
  rw [decideStake_recovery pp k hk acc]
  simp only
  split
  · linarith [‹round2 (acc * (1 + pp) / payout_u4) < 35/100›]
  · exact hr

/-- Strict bet-over-bet growth: after losing a recovery stake, the next
recovery stake (computed from the new, larger accumulated loss) is strictly
larger. -/
theorem recovery_growth (pp : ℚ) (hpp : 2/100 ≤ pp) (k k' : ℕ) (hk : 2 ≤ k)
    (hk' : 2 ≤ k') (acc : ℚ) (hacc : 2 ≤ acc) :
    (decideStake pp k acc).2 <
      (decideStake pp k' (acc + (decideStake pp k acc).2)).2 := by
  rw [decideStake_recovery pp k hk acc]
  simp only [payout_u4]
  have harg : 17/10 ≤ acc * (1 + pp) / (6/5) := by
    rw [le_div_iff (by norm_num : (0:ℚ) < 6/5)]
    nlinarith [mul_nonneg (by linarith : (0:ℚ) ≤ acc - 2) (by linarith : (0:ℚ) ≤ pp - 2/100)]
  have hround_lb := round2_ge_of_le _ harg
  have hnot : ¬ round2 (acc * (1 + pp) / (6/5)) < 35/100 := by linarith
  rw [if_neg hnot]
  have hacc' : 2 ≤ acc + round2 (acc * (1 + pp) / (6/5)) := by linarith
  rw [decideStake_recovery pp k' hk' _]
  simp only [payout_u4]
  have harg' : 17/10 ≤
      (acc + round2 (acc * (1 + pp) / (6/5))) * (1 + pp) / (6/5) := by
    rw [le_div_iff (by norm_num : (0:ℚ) < 6/5)]
    nlinarith [mul_nonneg (by linarith : (0:ℚ) ≤ acc + round2 (acc * (1 + pp) / (6/5)) - 2)
      (by linarith : (0:ℚ) ≤ pp - 2/100)]
  have hnot' : ¬ round2
      ((acc + round2 (acc * (1 + pp) / (6/5))) * (1 + pp) / (6/5)) < 35/100 := by
    linarith [round2_ge_of_le _ harg']
  rw [if_neg hnot']
  have h1 := round2_le (acc * (1 + pp) / (6/5))
  have h2 := round2_ge
    ((acc + round2 (acc * (1 + pp) / (6/5))) * (1 + pp) / (6/5))
  have hsplit : (acc + round2 (acc * (1 + pp) / (6/5))) * (1 + pp) / (6/5) =
      acc * (1 + pp) / (6/5) +
        round2 (acc * (1 + pp) / (6/5)) * (1 + pp) / (6/5) := by
    ring
  have hterm : 17/20 * round2 (acc * (1 + pp) / (6/5)) ≤
      round2 (acc * (1 + pp) / (6/5)) * (1 + pp) / (6/5) := by
    rw [le_div_iff (by norm_num : (0:ℚ) < 6/5)]
    nlinarith [mul_nonneg (by linarith : (0:ℚ) ≤ round2 (acc * (1 + pp) / (6/5)))
      (by linarith : (0:ℚ) ≤ pp - 2/100)]
  linarith [hsplit]

/-- Entering the loop in recovery (`streak ≥ 2`, `acc ≥ 2`), the produced
stakes are strictly increasing, and the first produced stake is the policy
stake for the entry state. -/
theorem simSteps_recovery_chain (pp sl : ℚ) (hpp : 2/100 ≤ pp) :
    ∀ (fuel i : ℕ) (b : ℚ) (streak : ℕ) (acc : ℚ), 2 ≤ streak → 2 ≤ acc →
      List.Chain' (fun r r' => r.stake < r'.stake)
        (simSteps pp sl fuel i b streak acc).1 ∧
      ∀ r ∈ (simSteps pp sl fuel i b streak acc).1.head?,
        r.stake = (decideStake pp streak acc).2 := by
  intro fuel
  induction fuel with
  | zero =>
    intro i b streak acc hstreak hacc
    simp [simSteps]
  | succ n ih =>
    intro i b streak acc hstreak hacc
    rw [simSteps_succ]
    have hgrow : (decideStake pp streak acc).2 <
        (decideStake pp (streak+1) (acc + (decideStake pp streak acc).2)).2 :=
      recovery_growth pp hpp streak (streak+1) hstreak (by omega) acc hacc
    have hacc' : 2 ≤ acc + (decideStake pp streak acc).2 := by
      linarith [recovery_stake_lb pp hpp streak hstreak acc hacc]
    by_cases hstop : sl ≤ |b - (decideStake pp streak acc).2|
    · rw [if_pos hstop]
      constructor
      · exact List.chain'_singleton _
      · intro r hr
        simp only [List.head?_cons, Option.mem_def, Option.some.injEq] at hr
        subst hr
        rfl
    · rw [if_neg hstop]
      have htail := ih (i+1) (b - (decideStake pp streak acc).2) (streak+1)
        (acc + (decideStake pp streak acc).2) (by omega) hacc'
      constructor
      · rw [List.chain'_cons']
        refine ⟨?_, htail.1⟩
        intro r1 hr1
        have := htail.2 r1 hr1
        rw [this]
        exact hgrow
      · intro r hr
        simp only [List.head?_cons, Option.mem_def, Option.some.injEq] at hr
        subst hr
        rfl

/-- The run never produces more records than its fuel. -/
theorem simSteps_length_le (pp sl : ℚ) :
    ∀ (fuel i : ℕ) (b : ℚ) (streak : ℕ) (acc : ℚ),
      (simSteps pp sl fuel i b streak acc).1.length ≤ fuel := by
  intro fuel
  induction fuel with
  | zero =>
    intro i b streak acc
    simp [simSteps]
  | succ n ih =>
    intro i b streak acc
    rw [simSteps_succ]
    by_cases hstop : sl ≤ |b - (decideStake pp streak acc).2|
    · rw [if_pos hstop]
      simp
    · rw [if_neg hstop]
      simpa using ih (i+1) (b - (decideStake pp streak acc).2) (streak+1)
        (acc + (decideStake pp streak acc).2)

/-- The loop always produces at least one record: the first bet is placed
before any check can end the session. -/
theorem simSteps_length_pos (pp sl : ℚ) (i : ℕ) (b : ℚ) (streak : ℕ)
    (acc : ℚ) : 1 ≤ (simSteps pp sl 19 i b streak acc).1.length := by
  rw [show (19:ℕ) = 18+1 from rfl, simSteps_succ]
  by_cases hstop : sl ≤ |b - (decideStake pp streak acc).2|
  · rw [if_pos hstop]
    simp
  · rw [if_neg hstop]
    simp

/-! ### Projections of `simulate_apollo` -/

theorem simulate_apollo_history (sl : ℚ) (mode : String) :
    (simulate_apollo sl mode).history =
      (simSteps (profit_pct mode) sl 19 1 0 0 0).1 := rfl

theorem simulate_apollo_balance (sl : ℚ) (mode : String) :
    (simulate_apollo sl mode).balance =
      (simSteps (profit_pct mode) sl 19 1 0 0 0).2.1 := rfl

theorem simulate_apollo_stopped (sl : ℚ) (mode : String) :
    (simulate_apollo sl mode).stopped_out =
      (simSteps (profit_pct mode) sl 19 1 0 0 0).2.2 := rfl

theorem simulate_apollo_invested (sl : ℚ) (mode : String) :
    (simulate_apollo sl mode).total_invested =
      if (simSteps (profit_pct mode) sl 19 1 0 0 0).2.2 then
        some |(simSteps (profit_pct mode) sl 19 1 0 0 0).2.1| else none := rfl

theorem profit_pct_conservador : profit_pct "conservador" = 2/100 := by
  rw [profit_pct, if_pos rfl]

theorem profit_pct_ge (mode : String) : 2/100 ≤ profit_pct mode := by
  rw [profit_pct]
  split
  · norm_num
  · norm_num

theorem profit_pct_le (mode : String) : profit_pct mode ≤ 15/100 := by
  rw [profit_pct]
  split
  · norm_num
  · norm_num

/-! ### Concrete runs used as evaluation witnesses -/

/-- With `stop_loss = 1` the session stops out on the very first bet. -/
theorem run_stop1 :
    simSteps (2/100) 1 19 1 0 0 0 = ([⟨1, "U8", 1, -1, 1⟩], -1, true) := by
  rw [show (19:ℕ) = 18+1 from rfl, simSteps_succ, decideStake_zero]
  norm_num [base_stake]

/-- With `stop_loss = 2` the session runs exactly two Normal bets and then
stops out. -/
theorem run_stop2 :
    simSteps (2/100) 2 19 1 0 0 0 =
      ([⟨1, "U8", 1, -1, 1⟩, ⟨2, "U8", 1, -2, 2⟩], -2, true) := by
  rw [show (19:ℕ) = 18+1 from rfl, simSteps_succ, decideStake_zero]
  rw [if_neg (by norm_num [base_stake])]
  rw [show (18:ℕ) = 17+1 from rfl, simSteps_succ]
  norm_num [base_stake, decideStake_one]

/-- The Conservative recovery stake on an accumulated loss of `2.00`:
`round(2 * 1.02 / 1.20, 2) = round(1.7, 2) = 1.70`. -/
theorem round2_seventeen : round2 ((2:ℚ) * (1 + 2/100) / payout_u4) = 17/10 := by
  rw [payout_u4]
  rw [round2_num _ 170 (by norm_num) (by norm_num)]
  norm_num

/-- The first three steps of the default Conservative session: two Normal
bets of `1.00`, then the first Recovery bet of `1.70`. -/
theorem run50_first3 :
    ∃ t, (simSteps (2/100) 50 19 1 0 0 0).1 =
      ⟨1, "U8", 1, -1, 1⟩ :: ⟨2, "U8", 1, -2, 2⟩ ::
        ⟨3, "U4", 17/10, -37/10, 37/10⟩ :: t := by
  have hd2 : decideStake (1/50) 2 2 = ("U4", 17/10) := by
    rw [decideStake_recovery (1/50) 2 (by norm_num) 2]
    rw [show (2:ℚ) * (1 + 1/50) / payout_u4 = 17/10 from by rw [payout_u4]; norm_num]
    rw [round2_num _ 170 (by norm_num) (by norm_num)]
    norm_num
  rw [show (19:ℕ) = 18+1 from rfl, simSteps_succ, decideStake_zero]
  rw [if_neg (by norm_num [base_stake])]
  rw [show (18:ℕ) = 17+1 from rfl, simSteps_succ]
  rw [decideStake_one]
  rw [if_neg (by norm_num [base_stake])]
  rw [show (17:ℕ) = 16+1 from rfl, simSteps_succ]
  norm_num [base_stake]
  rw [hd2]
  rw [if_neg (by norm_num [abs_of_nonpos])]
  exact ⟨(simSteps (1/50) 50 16 4 (-37/10) 3 (37/10)).1, by norm_num⟩

/-! ### Claim theorems -/

/-- C1: every step taken with `lossStreak ≥ 2` (step number ≥ 3 in the
always-loss run) uses the Recovery instrument `"U4"` and stakes
`round(accumulatedLoss * (1 + profitMargin) / payoutRateRecovery, 2)`
floored at `0.35`, where `accumulatedLoss` is the pre-bet accumulated loss
(`acc_loss - stake` of the record); moreover `profitMargin` is `0.02` for
Conservative and `0.15` for everything else, `payoutRateRecovery` is
`1.20`, the Aggressive recovery stake on an accumulated loss of `10.0` is
`9.58`, and a computed recovery stake of `0.10` is raised to exactly
`0.35`. -/
theorem recovery_stake_formula :
    (∀ (sl : ℚ) (mode : String) (r : StepRecord),
       r ∈ (simulate_apollo sl mode).history → 3 ≤ r.step →
         r.contract = "U4" ∧
         r.stake =
           (if round2 ((r.acc_loss - r.stake) * (1 + profit_pct mode) / payout_u4)
               < 35/100 then 35/100
            else round2 ((r.acc_loss - r.stake) * (1 + profit_pct mode) / payout_u4)) ∧
         35/100 ≤ r.stake) ∧
    profit_pct "conservador" = 2/100 ∧
    profit_pct "agressivo" = 15/100 ∧
    payout_u4 = 6/5 ∧
    decideStake (15/100) 2 10 = ("U4", 958/100) ∧
    round2 ((2/17) * (1 + 2/100) / payout_u4) = 1/10 ∧
    (decideStake (2/100) 2 (2/17)).2 = 35/100 := by
  refine ⟨?_, profit_pct_conservador, ?_, rfl, ?_, ?_, ?_⟩
  · intro sl mode r hr hstep
    rw [simulate_apollo_history] at hr
    obtain ⟨hpos, hps⟩ := simSteps_stake_eq (profit_pct mode) sl 19 1 0 0 0 rfl r hr
    rw [decideStake_recovery _ _ (by omega : 2 ≤ r.step - 1)] at hps
    rw [Prod.mk.injEq] at hps
    refine ⟨hps.1, hps.2, ?_⟩
    rw [hps.2]
    split
    · norm_num
    · linarith [‹¬ round2 ((r.acc_loss - r.stake) * (1 + profit_pct mode) / payout_u4) < 35/100›]
  · rw [profit_pct, if_neg (by decide)]
  · rw [decideStake_recovery _ 2 (le_refl 2) 10]
    rw [show (10:ℚ) * (1 + 15/100) / payout_u4 = 115/12 from by rw [payout_u4]; norm_num]
    rw [round2_num _ 958 (by norm_num) (by norm_num)]
    norm_num
  · rw [show (2:ℚ)/17 * (1 + 2/100) / payout_u4 = 1/10 from by rw [payout_u4]; norm_num]
    rw [round2_num _ 10 (by norm_num) (by norm_num)]
    norm_num
  · rw [decideStake_recovery _ 2 (le_refl 2) (2/17)]
    rw [show (2:ℚ)/17 * (1 + 2/100) / payout_u4 = 1/10 from by rw [payout_u4]; norm_num]
    rw [round2_num _ 10 (by norm_num) (by norm_num)]
    norm_num

/-- Evaluation witness: step 3 of the default Conservative run is a
Recovery bet. -/
theorem recovery_stake_formula_witness :
    (⟨3, "U4", 17/10, -37/10, 37/10⟩ : StepRecord).contract = "U4" :=
  (recovery_stake_formula.1 50 "conservador" ⟨3, "U4", 17/10, -37/10, 37/10⟩
    (by
      obtain ⟨t, ht⟩ := run50_first3
      rw [simulate_apollo_history, profit_pct_conservador, ht]
      exact List.mem_cons_of_mem _ (List.mem_cons_of_mem _ (List.mem_cons_self _ _)))
    (by norm_num)).1

/-- C2: in the always-loss run, every recorded state satisfies
`accumulatedLoss = -balance`; the run starts from the zeroed state, for
which the invariant holds trivially. -/
theorem acc_loss_mirrors_balance (sl : ℚ) (mode : String) (r : StepRecord)
    (hr : r ∈ (simulate_apollo sl mode).history) : r.acc_loss = -r.balance := by
  rw [simulate_apollo_history] at hr
  exact simSteps_acc_neg_balance (profit_pct mode) sl 19 1 0 0 0 (by norm_num) r hr

/-- Evaluation witness: the single record of the `stop_loss = 1` run
satisfies the invariant. -/
theorem acc_loss_mirrors_balance_witness :
    (⟨1, "U8", 1, -1, 1⟩ : StepRecord).acc_loss =
      -(⟨1, "U8", 1, -1, 1⟩ : StepRecord).balance :=
  acc_loss_mirrors_balance 1 "conservador" ⟨1, "U8", 1, -1, 1⟩
    (by
      rw [simulate_apollo_history, profit_pct_conservador, run_stop1]
      exact List.mem_singleton_self _)

/-- C3: the loop `for i in range(1, 20)` performs at most 19 iterations —
not the 20 the claim (and the source's own `Simulate up to 20 steps`
comment) state.  With `stop_loss = 10^6` the always-loss session exhausts
the loop after exactly 19 steps, with no stop-out. -/
theorem step_cap_is_nineteen :
    (∀ (sl : ℚ) (mode : String), (simulate_apollo sl mode).history.length ≤ 19) ∧
    (simulate_apollo 1000000 "conservador").history.length = 19 ∧
    (simulate_apollo 1000000 "conservador").stopped_out = false := by
  refine ⟨?_, ?_, ?_⟩
  · intro sl mode
    rw [simulate_apollo_history]
    exact simSteps_length_le _ _ 19 1 0 0 0
  · rw [simulate_apollo_history]
    exact (simSteps_no_stop _ _ (profit_pct_le _) 19 1 0 0 0 (by norm_num)
      (by norm_num) (by norm_num)).1
  · rw [simulate_apollo_stopped]
    exact (simSteps_no_stop _ _ (profit_pct_le _) 19 1 0 0 0 (by norm_num)
      (by norm_num) (by norm_num)).2

/-- C4: every step taken with `lossStreak ∈ {0, 1}` (step number ≤ 2 in
the always-loss run) uses the Normal instrument `"U8"` and stakes exactly
`baseStake`. -/
theorem base_stake_steps (sl : ℚ) (mode : String) (r : StepRecord)
    (hr : r ∈ (simulate_apollo sl mode).history) (hs : r.step ≤ 2) :
    r.contract = "U8" ∧ r.stake = base_stake := by
  rw [simulate_apollo_history] at hr
  obtain ⟨hpos, hps⟩ := simSteps_stake_eq (profit_pct mode) sl 19 1 0 0 0 rfl r hr
  have hcase : r.step - 1 = 0 ∨ r.step - 1 = 1 := by omega
  rcases hcase with hc | hc
  · rw [hc, decideStake_zero, Prod.mk.injEq] at hps
    exact ⟨hps.1, hps.2⟩
  · rw [hc, decideStake_one, Prod.mk.injEq] at hps
    exact ⟨hps.1, hps.2⟩

/-- Evaluation witness: step 2 of the `stop_loss = 2` run is a Normal bet
at `baseStake`. -/
theorem base_stake_steps_witness :
    (⟨2, "U8", 1, -2, 2⟩ : StepRecord).contract = "U8" ∧
    (⟨2, "U8", 1, -2, 2⟩ : StepRecord).stake = base_stake :=
  base_stake_steps 2 "conservador" ⟨2, "U8", 1, -2, 2⟩
    (by
      rw [simulate_apollo_history, profit_pct_conservador, run_stop2]
      exact List.mem_cons_of_mem _ (List.mem_cons_self _ _))
    (by norm_num)

/-- C5: if any recorded step's post-bet balance satisfies
`abs(balance) ≥ stopLoss`, the session stops immediately: that record is
the last one, the run reports a stop-out, and the reported total invested
is `abs(balance)` of the final balance, which is that record's balance. -/
theorem stop_loss_immediate (sl : ℚ) (mode : String) (r : StepRecord)
    (hr : r ∈ (simulate_apollo sl mode).history) (hb : sl ≤ |r.balance|) :
    (simulate_apollo sl mode).stopped_out = true ∧
    (simulate_apollo sl mode).history.getLast? = some r ∧
    (simulate_apollo sl mode).balance = r.balance ∧
    (simulate_apollo sl mode).total_invested = some |r.balance| := by
  rw [simulate_apollo_history] at hr
  have h := simSteps_stop (profit_pct mode) sl 19 1 0 0 0 r hr hb
  refine ⟨?_, ?_, ?_, ?_⟩
  · rw [simulate_apollo_stopped]
    exact h.1
  · rw [simulate_apollo_history]
    exact h.2.2
  · rw [simulate_apollo_balance]
    exact h.2.1
  · rw [simulate_apollo_invested, h.1, if_pos rfl, h.2.1]

/-- Evaluation witness: the `stop_loss = 2` run stops out at step 2 and
reports total invested `|-2| `. -/
theorem stop_loss_immediate_witness :
    (simulate_apollo 2 "conservador").stopped_out = true ∧
    (simulate_apollo 2 "conservador").history.getLast? =
      some ⟨2, "U8", 1, -2, 2⟩ ∧
    (simulate_apollo 2 "conservador").balance =
      (⟨2, "U8", 1, -2, 2⟩ : StepRecord).balance ∧
    (simulate_apollo 2 "conservador").total_invested =
      some |(⟨2, "U8", 1, -2, 2⟩ : StepRecord).balance| :=
  stop_loss_immediate 2 "conservador" ⟨2, "U8", 1, -2, 2⟩
    (by
      rw [simulate_apollo_history, profit_pct_conservador, run_stop2]
      exact List.mem_cons_of_mem _ (List.mem_cons_self _ _))
    (by norm_num [abs_of_nonpos])

/-- C6: the Conservative `stop_loss = 50` scenario: steps 1 and 2 are
Normal bets of `1.00`, step 3 enters Recovery on an accumulated loss of
`2.00` with target `2.04` and stake `1.70`, leaving balance `-3.70`. -/
theorem conservative_scenario :
    (simulate_apollo 50 "conservador").history.take 3 =
      [⟨1, "U8", 1, -1, 1⟩, ⟨2, "U8", 1, -2, 2⟩,
       ⟨3, "U4", 17/10, -37/10, 37/10⟩] ∧
    (2:ℚ) * (1 + profit_pct "conservador") = 204/100 ∧
    round2 ((2:ℚ) * (1 + profit_pct "conservador") / payout_u4) = 17/10 := by
  refine ⟨?_, ?_, ?_⟩
  · obtain ⟨t, ht⟩ := run50_first3
    rw [simulate_apollo_history, profit_pct_conservador, ht]
    simp [List.take]
  · rw [profit_pct_conservador]
    norm_num
  · rw [profit_pct_conservador]
    exact round2_seventeen

/-- C8: the per-step outcome application defines the Win transition
`balance += stake * payoutRate(instrument); accumulatedLoss = 0;
lossStreak = 0`, its Loss branch is exactly the source's loss update, and
the payout rates are the source constants. -/
theorem win_transition (contract : String) (stake : ℚ) (st : SessionState) :
    applyOutcome contract stake Outcome.win st =
      ⟨st.balance + stake * payoutRate contract, 0, 0⟩ ∧
    applyOutcome contract stake Outcome.loss st =
      ⟨st.balance - stake, st.loss_streak + 1, st.accumulated_loss + stake⟩ ∧
    payoutRate "U4" = payout_u4 ∧ payoutRate "U8" = payout_u8 :=
  ⟨rfl, rfl, rfl, by rw [payoutRate, if_neg (by decide)]⟩

/-- C9 counterexample: with a negative stop-loss and an unknown mode the
session is constructed and runs a step anyway — nothing fails before the
first bet. -/
theorem no_validation_cex :
    (simulate_apollo (-1) "modo_qualquer").history.length = 1 ∧
    (simulate_apollo (-1) "modo_qualquer").stopped_out = true := by
  have h : simSteps (profit_pct "modo_qualquer") (-1) 19 1 0 0 0 =
      ([⟨1, "U8", 1, -1, 1⟩], -1, true) := by
    rw [show (19:ℕ) = 18+1 from rfl, simSteps_succ, decideStake_zero]
    norm_num [base_stake]
  constructor
  · rw [simulate_apollo_history, h]
    rfl
  · rw [simulate_apollo_stopped, h]

/-- C9 (amended): the source performs no configuration validation:
every `(stop_loss, mode)` pair starts a run that places at least one bet,
and a non-positive stop-loss ends the session through the ordinary
stop-loss check right after the first bet rather than through any
construction-time error. -/
theorem no_validation_total (sl : ℚ) (mode : String) :
    1 ≤ (simulate_apollo sl mode).history.length ∧
    (sl ≤ 0 → (simulate_apollo sl mode).stopped_out = true ∧
      (simulate_apollo sl mode).history.length = 1) := by
  constructor
  · rw [simulate_apollo_history]
    exact simSteps_length_pos _ _ 1 0 0 0
  · intro hsl
    have habs : |(0:ℚ) - (decideStake (profit_pct mode) 0 0).2| = 1 := by
      rw [decideStake_zero]
      show |(0:ℚ) - base_stake| = 1
      rw [base_stake]
      norm_num
    have h1 : sl ≤ |(0:ℚ) - (decideStake (profit_pct mode) 0 0).2| := by
      rw [habs]
      linarith
    constructor
    · rw [simulate_apollo_stopped, show (19:ℕ) = 18+1 from rfl, simSteps_succ,
        if_pos h1]
    · rw [simulate_apollo_history, show (19:ℕ) = 18+1 from rfl, simSteps_succ,
        if_pos h1]
      rfl

/-- Evaluation witness: a session with `stop_loss = -5` and a misspelled
mode still runs and stops after its first bet. -/
theorem no_validation_total_witness :
    (simulate_apollo (-5) "conservadorr").stopped_out = true ∧
    (simulate_apollo (-5) "conservadorr").history.length = 1 :=
  (no_validation_total (-5) "conservadorr").2 (by norm_num)

/-- C10: any mode other than the exact string `"conservador"` silently
selects the Aggressive profit margin `0.15`, and the whole session is the
same as with any other non-Conservative mode string — no rejection of
unrecognized modes exists. -/
theorem unknown_mode_runs_aggressive (sl : ℚ) (mode : String)
    (h : mode ≠ "conservador") :
    profit_pct mode = 15/100 ∧
    simulate_apollo sl mode = simulate_apollo sl "agressivo" := by
  have hp : profit_pct mode = 15/100 := by rw [profit_pct, if_neg h]
  have hp2 : profit_pct "agressivo" = 15/100 := by
    rw [profit_pct, if_neg (by decide)]
  refine ⟨hp, ?_⟩
  simp only [simulate_apollo]
  rw [hp, hp2]

/-- Evaluation witness: the misspelled mode `"Conservador"` (capital C)
runs the Aggressive margin. -/
theorem unknown_mode_runs_aggressive_witness :
    profit_pct "Conservador" = 15/100 ∧
    simulate_apollo 50 "Conservador" = simulate_apollo 50 "agressivo" :=
  unknown_mode_runs_aggressive 50 "Conservador" (by decide)

/-- C7: the recovery stakes of any always-loss session strictly increase
bet over bet: after the two Normal steps, each successive recorded stake
is larger than the one before, because the policy re-reads the current
(grown) accumulated loss at every step. -/
theorem recovery_stakes_increase (sl : ℚ) (mode : String) :
    List.Chain' (fun r r' => r.stake < r'.stake)
      ((simulate_apollo sl mode).history.drop 2) := by
  have hpp := profit_pct_ge mode
  rw [simulate_apollo_history]
  rw [show (19:ℕ) = 18+1 from rfl, simSteps_succ, decideStake_zero]
  by_cases h1 : sl ≤ |0 - ("U8", base_stake).2|
  · rw [if_pos h1]
    simp
  · rw [if_neg h1]
    rw [show (18:ℕ) = 17+1 from rfl, simSteps_succ, decideStake_one]
    by_cases h2 : sl ≤ |0 - ("U8", base_stake).2 - ("U8", base_stake).2|
    · rw [if_pos h2]
      simp
    · rw [if_neg h2]
      simp only [List.drop_succ_cons, List.drop_zero]
      exact (simSteps_recovery_chain (profit_pct mode) sl hpp 17 (1+1+1)
        (0 - ("U8", base_stake).2 - ("U8", base_stake).2) (0+1+1)
        (0 + ("U8", base_stake).2 + ("U8", base_stake).2)
        (by norm_num) (by norm_num [base_stake])).1
